import Mathlib

/-!
Verification of the AnswerForge candidate-verification engine
(`answerforge/verifier/`): a shallow embedding in Lean 4 of
`static_checks.py` (`looks_safe_python` and its regex blacklist),
`docker_sandbox.py` (`run_in_docker`, with the external subprocess
abstracted as a `ProcOutcome`), and `verifier.py`
(`make_executable_snippet`, `_verify_single`, `verify_python`).

Strings are modelled as `List Char`.  Python `str.strip` / `str.rstrip`
strip the six ASCII whitespace characters; `re.search` over the fixed
blacklist patterns is embedded as hand-rolled matchers with Python
word-boundary (`\b`), `\s*`, and non-newline `.` semantics.

Effects are made explicit: the external container process is an oracle
`world : List Char -> ProcOutcome`; the possibly-raising single-candidate
pipeline inside `verify_python`'s try/except is an oracle
`vOne : List Char -> Except (List Char) SingleResult`; and
`verify_single_ev` is the same computation as `verify_single`
instrumented with the ordered trace of component invocations
(screen / normalize / execute), used to state "component X was (not)
invoked" claims.
-/

namespace AnswerForge

/-- The six ASCII whitespace characters stripped by Python `str.strip`
(and matched by `\s` in its regexes for the ASCII inputs considered). -/
def isPyWS (c : Char) : Bool :=
  c == ' ' || c == '\t' || c == '\n' || c == '\r' ||
    c == Char.ofNat 11 || c == Char.ofNat 12

/-- Python `str.lstrip()`. -/
def pyLStrip (s : List Char) : List Char := s.dropWhile isPyWS

/-- Python `str.rstrip()`. -/
def pyRStrip (s : List Char) : List Char := (s.reverse.dropWhile isPyWS).reverse

/-- Python `str.strip()`. -/
def pyStrip (s : List Char) : List Char := pyLStrip (pyRStrip s)

/-- Python regex `\w` for ASCII input: letters, digits, underscore. -/
def isWordChar (c : Char) : Bool := c.isAlphanum || c == '_'

/-- Matcher for a pattern of shape `lit\s*\(` anchored at the head of `s`:
the literal characters, then any run of whitespace, then an opening
parenthesis. -/
def matchCallAfter (lit : List Char) (s : List Char) : Bool :=
  lit.isPrefixOf s && ((s.drop lit.length).dropWhile isPyWS).head? == some '('

/-- Matcher for a pattern of shape `lit\.` anchored at the head of `s`:
the literal characters followed by a dot. -/
def matchDotted (lit : List Char) (s : List Char) : Bool :=
  (lit ++ ['.']).isPrefixOf s

/-- A single or double quote character (the regex class `['\"]`). -/
def isQuote (c : Char) : Bool := c == Char.ofNat 39 || c == '"'

/-- Tail of the `open` pattern: `['\"]w['\"]` anchored at the head. -/
def quoteW : List Char → Bool
  | q :: c :: r :: _ => isQuote q && c == 'w' && isQuote r
  | _ => false

/-- Existential semantics of regex `.+` followed by a sub-pattern `p`:
one or more non-newline characters are consumed, after which `p`
matches. -/
def dotPlusThen (p : List Char → Bool) : List Char → Bool
  | [] => false
  | c :: rest => !(c == '\n') && (p rest || dotPlusThen p rest)

/-- Matcher for the pattern `open\s*\(.+['\"]w['\"]` anchored at the head. -/
def matchOpenW (s : List Char) : Bool :=
  match (("open").data).isPrefixOf s, (s.drop 4).dropWhile isPyWS with
  | true, '(' :: rest => dotPlusThen quoteW rest
  | _, _ => false

/-- `re.search` for a pattern beginning with `\b` followed by a word
character: try the anchored matcher `m` at every position whose
preceding character (if any) is a non-word character.  `bd` records
whether the current position sits at a word boundary. -/
def searchFrom (m : List Char → Bool) : Bool → List Char → Bool
  | bd, [] => bd && m []
  | bd, c :: rest => (bd && m (c :: rest)) || searchFrom m (!isWordChar c) rest

/-- `re.search(pat, s)` for the blacklist patterns (each starts `\b`). -/
def reSearch (m : List Char → Bool) (s : List Char) : Bool := searchFrom m true s

/-- The apostrophe character, kept out of string literals. -/
def aposChar : Char := Char.ofNat 39

/-- The source text of the fifth blacklist regex,
`\bopen\s*\(.+['\"]w['\"]` (built programmatically because of the
quote characters it contains). -/
def openWPatStr : String :=
  ("\\bopen\\s*\\(.+[") ++ String.mk [aposChar] ++ ("\\\"]w[") ++
    String.mk [aposChar] ++ ("\\\"]")

/-- `BLACKLIST` from `static_checks.py`: each entry pairs the regex
source string (the identifier reported in `matches`) with its embedded
matcher. -/
def BLACKLIST : List (String × (List Char → Bool)) :=
  [ (("\\bos\\.system\\s*\\("), matchCallAfter (("os.system").data)),
    (("\\bsubprocess\\."), matchDotted (("subprocess").data)),
    (("\\beval\\s*\\("), matchCallAfter (("eval").data)),
    (("\\bexec\\s*\\("), matchCallAfter (("exec").data)),
    (openWPatStr, matchOpenW),
    (("\\brequests\\."), matchDotted (("requests").data)),
    (("\\burllib\\."), matchDotted (("urllib").data)),
    (("\\bsocket\\."), matchDotted (("socket").data)) ]

/-- `looks_safe_python` from `static_checks.py`: collect every pattern
that matches somewhere in `code`; safe iff no pattern matched. -/
def looks_safe_python (code : List Char) : Bool × List String :=
  let ms := (BLACKLIST.filter (fun p => reSearch p.2 code)).map (fun p => p.1)
  (ms.length == 0, ms)

/-- `make_executable_snippet` from `verifier.py`: rstrip and terminate
with a newline; if the stripped text contains no newline, wrap it in a
`print(...)` call. -/
def make_executable_snippet (code : List Char) : List Char :=
  let code1 := pyRStrip code ++ [('\n')]
  if ('\n') ∈ pyStrip code1 then code1
  else (("print(").data) ++ pyStrip code1 ++ ((")\n").data)

/-- Behavior of the external `subprocess.run` call on the docker
command inside `run_in_docker`: normal completion with an exit code and
captured output, `subprocess.TimeoutExpired`, or any other raised
exception (launch failure) carrying its message. -/
inductive ProcOutcome where
  | completed (returncode : Int) (stdout stderr : List Char)
  | timeoutExpired
  | raised (msg : List Char)
deriving DecidableEq

/-- The dict returned by `run_in_docker`; absent keys are `none`. -/
structure DockerRes where
  ok : Bool
  stdout : Option (List Char) := none
  stderr : Option (List Char) := none
  return_code : Option Int := none
  error : Option (List Char) := none
deriving DecidableEq

/-- `run_in_docker` from `docker_sandbox.py`, as a function of the
external process behavior. -/
def run_in_docker (p : ProcOutcome) : DockerRes :=
  match p with
  | .completed rc out err =>
      { ok := rc == 0, stdout := some (pyStrip out), stderr := some (pyStrip err),
        return_code := some rc, error := none }
  | .timeoutExpired =>
      { ok := false, stdout := some [], stderr := some [],
        error := some (("timeout").data) }
  | .raised msg =>
      { ok := false, error := some msg }

/-- The specification's failure-kind taxonomy for one sandbox run
(spec section 4.2); stated on the process outcome, the level at which
`run_in_docker`'s except-branches classify. -/
def failure_kind : ProcOutcome → Option String
  | .completed rc _ _ => if rc == 0 then none else some (("nonzero_exit"))
  | .timeoutExpired => some (("timeout"))
  | .raised _ => some (("launch_error"))

/-- The dict returned by `_verify_single`: the blacklist branch carries
`matches` and no `details`; the docker branches carry `details`. -/
structure SingleResult where
  verified : Bool
  reason : String
  matched : Option (List String) := none
  details : Option DockerRes := none
deriving DecidableEq

/-- `_verify_single` from `verifier.py`: static checks on the raw code,
then (only if safe) normalization and one docker execution, with the
external process behavior supplied by `world`. -/
def verify_single (world : List Char → ProcOutcome) (code : List Char) :
    SingleResult :=
  let sm := looks_safe_python code
  if sm.1 = false then
    { verified := false, reason := ("static_blacklist_match"), matched := some sm.2 }
  else
    let payload := make_executable_snippet code
    let res := run_in_docker (world payload)
    if res.ok then
      { verified := true, reason := ("docker_passed"), details := some res }
    else
      { verified := false, reason := ("docker_failed"), details := some res }

/-- One component invocation performed by the single-candidate pipeline,
with the exact argument it received (and, for normalization, produced). -/
inductive PipeEvent where
  | screen (input : List Char) (safe : Bool)
  | normalize (input output : List Char)
  | execute (input : List Char)
deriving DecidableEq

/-- `_verify_single` instrumented with the ordered trace of component
invocations; its first component is exactly `verify_single`. -/
def verify_single_ev (world : List Char → ProcOutcome) (code : List Char) :
    SingleResult × List PipeEvent :=
  let sm := looks_safe_python code
  if sm.1 = false then
    ({ verified := false, reason := ("static_blacklist_match"), matched := some sm.2 },
      [PipeEvent.screen code false])
  else
    let payload := make_executable_snippet code
    let res := run_in_docker (world payload)
    if res.ok then
      ({ verified := true, reason := ("docker_passed"), details := some res },
        [PipeEvent.screen code true, PipeEvent.normalize code payload,
          PipeEvent.execute payload])
    else
      ({ verified := false, reason := ("docker_failed"), details := some res },
        [PipeEvent.screen code true, PipeEvent.normalize code payload,
          PipeEvent.execute payload])

/-- The `details` value stored in a trial record: the docker result dict
(copied from the single result) or the caught exception message. -/
inductive TrialDetails where
  | docker (r : DockerRes)
  | error (msg : List Char)
deriving DecidableEq

/-- One entry of `tried_blocks` built by `verify_python`. -/
structure TrialRecord where
  index : Nat
  skipped : Bool
  verified : Bool
  reason : Option String
  details : Option TrialDetails
deriving DecidableEq

/-- The dict returned by the list form of `verify_python`: on success
the winning result's `details` dict is merged next to `tried_blocks`
(field `winner`); on failure `winner` is `none`. -/
structure BatchResult where
  verified : Bool
  reason : Option String
  tried_blocks : List TrialRecord
  winner : Option DockerRes
deriving DecidableEq

/-- The skip test `not blk or len(blk.strip()) < 6` of `verify_python`. -/
def skip_check (blk : List Char) : Bool :=
  blk == [] || (pyStrip blk).length < 6

/-- The trial record `verify_python` appends for candidate `blk` at
enumeration index `idx`, given the outcome of the (possibly raising)
single-candidate pipeline `vOne`.  Mirrors the three branches of the
loop body. -/
def entryOf (vOne : List Char → Except (List Char) SingleResult)
    (idx : Nat) (blk : List Char) : TrialRecord :=
  if skip_check blk then
    ⟨idx, true, false, some (("too_short")), none⟩
  else
    match vOne blk with
    | .error e => ⟨idx, false, false, some (("exception_in_verifier")),
        some (TrialDetails.error e)⟩
    | .ok res => ⟨idx, false, res.verified, some res.reason,
        res.details.map TrialDetails.docker⟩

/-- Whether candidate `blk` verifies when processed by the loop (a
skipped candidate never verifies). -/
def entry_verified (vOne : List Char → Except (List Char) SingleResult)
    (blk : List Char) : Bool :=
  (entryOf vOne 0 blk).verified

/-- The loop of the list form of `verify_python`: `idx` is the
enumeration index and `tried` the accumulated trial records.  The
`try/except` around the single-candidate pipeline is the `Except` in
`vOne`'s result. -/
def verify_python_go (vOne : List Char → Except (List Char) SingleResult) :
    Nat → List (List Char) → List TrialRecord → BatchResult
  | _, [], tried => ⟨false, some (("no_block_verified")), tried, none⟩
  | idx, blk :: rest, tried =>
    if skip_check blk then
      verify_python_go vOne (idx+1) rest
        (tried ++ [⟨idx, true, false, some (("too_short")), none⟩])
    else
      match vOne blk with
      | .error e =>
          verify_python_go vOne (idx+1) rest
            (tried ++ [⟨idx, false, false, some (("exception_in_verifier")),
              some (TrialDetails.error e)⟩])
      | .ok res =>
          if res.verified then
            ⟨true, some res.reason,
              tried ++ [⟨idx, false, res.verified, some res.reason,
                res.details.map TrialDetails.docker⟩],
              res.details⟩
          else
            verify_python_go vOne (idx+1) rest
              (tried ++ [⟨idx, false, res.verified, some res.reason,
                res.details.map TrialDetails.docker⟩])

/-- The list form of `verify_python`, generic in the (possibly raising)
single-candidate pipeline. -/
def verify_python_batch (vOne : List Char → Except (List Char) SingleResult)
    (xs : List (List Char)) : BatchResult :=
  verify_python_go vOne 0 xs []

/-- `verify_python` on a list of candidate strings: the loop applied to
the concrete single-candidate pipeline `_verify_single` (which, in this
model, never raises).  The string form of `verify_python` is
`verify_single` itself. -/
def verify_python (world : List Char → ProcOutcome)
    (xs : List (List Char)) : BatchResult :=
  verify_python_batch (fun c => Except.ok (verify_single world c)) xs

/-- The winning docker result recoverable from a trial record's details. -/
def winnerOf (r : TrialRecord) : Option DockerRes :=
  match r.details with
  | some (TrialDetails.docker d) => some d
  | _ => none

theorem go_nil (vOne : List Char → Except (List Char) SingleResult)
    (idx : Nat) (acc : List TrialRecord) :
    verify_python_go vOne idx [] acc =
      ⟨false, some (("no_block_verified")), acc, none⟩ := rfl

theorem go_cons (vOne : List Char → Except (List Char) SingleResult)
    (idx : Nat) (blk : List Char) (rest : List (List Char))
    (acc : List TrialRecord) :
    verify_python_go vOne idx (blk :: rest) acc =
      if (entryOf vOne idx blk).verified = true then
        ⟨true, (entryOf vOne idx blk).reason, acc ++ [entryOf vOne idx blk],
          winnerOf (entryOf vOne idx blk)⟩
      else verify_python_go vOne (idx+1) rest (acc ++ [entryOf vOne idx blk]) := by
  by_cases hs : skip_check blk = true
  · simp [verify_python_go, entryOf, hs]
  · cases hv : vOne blk with
    | error e => simp [verify_python_go, entryOf, hs, hv]
    | ok res =>
      by_cases hr : res.verified = true
      · cases hd : res.details <;>
          simp [verify_python_go, entryOf, winnerOf, hs, hv, hr, hd]
      · simp [verify_python_go, entryOf, hs, hv, hr]

theorem go_acc (vOne : List Char → Except (List Char) SingleResult)
    (xs : List (List Char)) :
    ∀ (idx : Nat) (acc : List TrialRecord),
    verify_python_go vOne idx xs acc =
      ⟨(verify_python_go vOne idx xs []).verified,
       (verify_python_go vOne idx xs []).reason,
       acc ++ (verify_python_go vOne idx xs []).tried_blocks,
       (verify_python_go vOne idx xs []).winner⟩ := by
  induction xs with
  | nil => intro idx acc; simp [go_nil]
  | cons blk rest ih =>
    intro idx acc
    rw [go_cons, go_cons]
    by_cases hv : (entryOf vOne idx blk).verified = true
    · simp [hv]
    · simp only [hv, if_false]
      rw [ih (idx+1) (acc ++ [entryOf vOne idx blk]),
        ih (idx+1) ([] ++ [entryOf vOne idx blk])]
      simp

theorem entryOf_shift (vOne : List Char → Except (List Char) SingleResult)
    (idx : Nat) (blk : List Char) :
    entryOf vOne idx blk = { entryOf vOne 0 blk with index := idx } := by
  by_cases hs : skip_check blk = true
  · simp [entryOf, hs]
  · cases hv : vOne blk <;> simp [entryOf, hs, hv]

theorem entryOf_verified (vOne : List Char → Except (List Char) SingleResult)
    (idx : Nat) (blk : List Char) :
    (entryOf vOne idx blk).verified = entry_verified vOne blk := by
  rw [entry_verified, entryOf_shift vOne idx blk]

theorem go_len_le (vOne : List Char → Except (List Char) SingleResult)
    (xs : List (List Char)) : ∀ (idx : Nat),
    (verify_python_go vOne idx xs []).tried_blocks.length ≤ xs.length := by
  induction xs with
  | nil => intro idx; simp [go_nil]
  | cons blk rest ih =>
    intro idx
    rw [go_cons]
    by_cases hv : (entryOf vOne idx blk).verified = true
    · simp [hv]
    · simp only [hv, if_false]
      rw [go_acc vOne rest (idx+1) ([] ++ [entryOf vOne idx blk])]
      simpa using Nat.succ_le_succ (ih (idx+1))

theorem go_getq (vOne : List Char → Except (List Char) SingleResult)
    (xs : List (List Char)) : ∀ (idx i : Nat),
    i < (verify_python_go vOne idx xs []).tried_blocks.length →
    (verify_python_go vOne idx xs []).tried_blocks.get? i =
      (xs.get? i).map (fun b => entryOf vOne (idx + i) b) := by
  induction xs with
  | nil => intro idx i h; simp [go_nil] at h
  | cons blk rest ih =>
    intro idx i h
    rw [go_cons] at h ⊢
    by_cases hv : (entryOf vOne idx blk).verified = true
    · rw [if_pos hv] at h ⊢
      simp at h
      subst h
      simp
    · rw [if_neg hv] at h ⊢
      rw [go_acc vOne rest (idx+1) ([] ++ [entryOf vOne idx blk])] at h ⊢
      simp only [List.nil_append, List.singleton_append] at h ⊢
      cases i with
      | zero => simp
      | succ j =>
        simp only [List.length_cons, Nat.succ_lt_succ_iff] at h
        have harith : idx + 1 + j = idx + (j + 1) := by omega
        simpa [List.get?_cons_succ, harith] using ih (idx+1) j h

theorem go_get (vOne : List Char → Except (List Char) SingleResult)
    (xs : List (List Char)) (idx i : Nat) (h2 : i < xs.length)
    (h : i < (verify_python_go vOne idx xs []).tried_blocks.length) :
    (verify_python_go vOne idx xs []).tried_blocks.get ⟨i, h⟩ =
      entryOf vOne (idx + i) (xs.get ⟨i, h2⟩) := by
  have hq := go_getq vOne xs idx i h
  rw [List.get?_eq_get h, List.get?_eq_get h2] at hq
  simpa using hq

theorem go_stopq (vOne : List Char → Except (List Char) SingleResult)
    (xs : List (List Char)) : ∀ (idx i : Nat) (r : TrialRecord),
    (verify_python_go vOne idx xs []).tried_blocks.get? i = some r →
    r.verified = true →
    (verify_python_go vOne idx xs []).tried_blocks.length = i + 1 ∧
    (verify_python_go vOne idx xs []).verified = true ∧
    verify_python_go vOne idx xs [] =
      verify_python_go vOne idx (xs.take (i+1)) [] := by
  induction xs with
  | nil => intro idx i r hr; simp [go_nil] at hr
  | cons blk rest ih =>
    intro idx i r hr hv
    rw [go_cons] at hr ⊢
    by_cases he : (entryOf vOne idx blk).verified = true
    · rw [if_pos he] at hr ⊢
      simp only [List.nil_append] at hr ⊢
      cases i with
      | zero =>
        refine ⟨by simp, trivial, ?_⟩
        rw [List.take_succ_cons, List.take_zero, go_cons, if_pos he]
        simp
      | succ j => simp at hr
    · rw [if_neg he] at hr ⊢
      rw [go_acc vOne rest (idx+1) ([] ++ [entryOf vOne idx blk])] at hr ⊢
      simp only [List.nil_append, List.singleton_append] at hr ⊢
      cases i with
      | zero =>
        simp only [List.get?_cons_zero, Option.some.injEq] at hr
        rw [hr] at he
        exact absurd hv he
      | succ j =>
        simp only [List.get?_cons_succ] at hr
        obtain ⟨hlen, hver, heq⟩ := ih (idx+1) j r hr hv
        refine ⟨by simp [hlen], hver, ?_⟩
        rw [List.take_succ_cons, go_cons, if_neg he,
          go_acc vOne (rest.take (j+1)) (idx+1) ([] ++ [entryOf vOne idx blk]),
          ← heq]
        simp

theorem go_append_verified (vOne : List Char → Except (List Char) SingleResult)
    (xs : List (List Char)) : ∀ (ys : List (List Char)) (idx : Nat),
    (verify_python_go vOne idx xs []).verified = true →
    verify_python_go vOne idx (xs ++ ys) [] = verify_python_go vOne idx xs [] := by
  induction xs with
  | nil => intro ys idx hv; simp [go_nil] at hv
  | cons blk rest ih =>
    intro ys idx hv
    rw [go_cons] at hv ⊢
    rw [List.cons_append, go_cons]
    by_cases he : (entryOf vOne idx blk).verified = true
    · rw [if_pos he]; rw [if_pos he]
    · rw [if_neg he] at hv ⊢
      rw [if_neg he]
      rw [go_acc vOne rest (idx+1) ([] ++ [entryOf vOne idx blk])] at hv
      simp only at hv
      rw [go_acc vOne (rest ++ ys) (idx+1) ([] ++ [entryOf vOne idx blk]),
        go_acc vOne rest (idx+1) ([] ++ [entryOf vOne idx blk]),
        ih ys (idx+1) hv]

theorem go_nosucc (vOne : List Char → Except (List Char) SingleResult)
    (xs : List (List Char)) : ∀ (idx : Nat),
    (∀ x ∈ xs, entry_verified vOne x = false) →
    (verify_python_go vOne idx xs []).verified = false ∧
    (verify_python_go vOne idx xs []).reason = some (("no_block_verified")) ∧
    (verify_python_go vOne idx xs []).winner = none ∧
    (verify_python_go vOne idx xs []).tried_blocks.length = xs.length := by
  induction xs with
  | nil => intro idx _; exact ⟨rfl, rfl, rfl, rfl⟩
  | cons blk rest ih =>
    intro idx h
    have he : (entryOf vOne idx blk).verified = false := by
      rw [entryOf_verified]; exact h blk (List.mem_cons_self blk rest)
    rw [go_cons, if_neg (by simp [he]),
      go_acc vOne rest (idx+1) ([] ++ [entryOf vOne idx blk])]
    obtain ⟨h1, h2, h3, h4⟩ := ih (idx+1) (fun x hx => h x (List.mem_cons_of_mem blk hx))
    exact ⟨h1, h2, h3, by simp [h4]⟩

theorem go_idx_inv (vOne : List Char → Except (List Char) SingleResult)
    (xs : List (List Char)) : ∀ (idx1 idx2 : Nat),
    (verify_python_go vOne idx1 xs []).verified =
      (verify_python_go vOne idx2 xs []).verified ∧
    (verify_python_go vOne idx1 xs []).reason =
      (verify_python_go vOne idx2 xs []).reason ∧
    (verify_python_go vOne idx1 xs []).winner =
      (verify_python_go vOne idx2 xs []).winner ∧
    (verify_python_go vOne idx1 xs []).tried_blocks.length =
      (verify_python_go vOne idx2 xs []).tried_blocks.length := by
  induction xs with
  | nil => intro idx1 idx2; exact ⟨rfl, rfl, rfl, rfl⟩
  | cons blk rest ih =>
    intro idx1 idx2
    rw [go_cons, go_cons]
    have hv12 : (entryOf vOne idx1 blk).verified = (entryOf vOne idx2 blk).verified := by
      rw [entryOf_verified, entryOf_verified]
    by_cases he : (entryOf vOne idx1 blk).verified = true
    · rw [if_pos he, if_pos (hv12 ▸ he)]
      refine ⟨rfl, ?_, ?_, by simp⟩
      · rw [entryOf_shift vOne idx1 blk, entryOf_shift vOne idx2 blk]
      · rw [entryOf_shift vOne idx1 blk, entryOf_shift vOne idx2 blk]
        simp [winnerOf]
    · rw [if_neg he, if_neg (hv12 ▸ he)]
      rw [go_acc vOne rest (idx1+1) ([] ++ [entryOf vOne idx1 blk]),
        go_acc vOne rest (idx2+1) ([] ++ [entryOf vOne idx2 blk])]
      obtain ⟨h1, h2, h3, h4⟩ := ih (idx1+1) (idx2+1)
      exact ⟨h1, h2, h3, by simp [h4]⟩

theorem go_split (vOne : List Char → Except (List Char) SingleResult)
    (pre : List (List Char)) : ∀ (rest : List (List Char)) (idx : Nat),
    (∀ x ∈ pre, entry_verified vOne x = false) →
    ∃ P : List TrialRecord, P.length = pre.length ∧
      verify_python_go vOne idx (pre ++ rest) [] =
        ⟨(verify_python_go vOne (idx + pre.length) rest []).verified,
         (verify_python_go vOne (idx + pre.length) rest []).reason,
         P ++ (verify_python_go vOne (idx + pre.length) rest []).tried_blocks,
         (verify_python_go vOne (idx + pre.length) rest []).winner⟩ := by
  induction pre with
  | nil => intro rest idx _; exact ⟨[], rfl, rfl⟩
  | cons p pre' ih =>
    intro rest idx h
    have he : (entryOf vOne idx p).verified = false := by
      rw [entryOf_verified]; exact h p (List.mem_cons_self p pre')
    rw [List.cons_append, go_cons, if_neg (by simp [he]),
      go_acc vOne (pre' ++ rest) (idx+1) ([] ++ [entryOf vOne idx p])]
    obtain ⟨P', hlen, heq⟩ := ih rest (idx+1) (fun x hx => h x (List.mem_cons_of_mem p hx))
    rw [heq]
    have harith : idx + 1 + pre'.length = idx + (pre'.length + 1) := by omega
    refine ⟨entryOf vOne idx p :: P', by simp [hlen], ?_⟩
    simp [harith]

theorem entryOf_congr (vOne1 vOne2 : List Char → Except (List Char) SingleResult)
    (idx : Nat) (blk : List Char) (h : vOne1 blk = vOne2 blk) :
    entryOf vOne1 idx blk = entryOf vOne2 idx blk := by
  simp [entryOf, h]

theorem go_ext (vOne1 vOne2 : List Char → Except (List Char) SingleResult)
    (xs : List (List Char)) : ∀ (idx : Nat) (acc : List TrialRecord),
    (∀ x ∈ xs, vOne1 x = vOne2 x) →
    verify_python_go vOne1 idx xs acc = verify_python_go vOne2 idx xs acc := by
  induction xs with
  | nil => intro idx acc _; rfl
  | cons blk rest ih =>
    intro idx acc h
    have hce := entryOf_congr vOne1 vOne2 idx blk (h blk (List.mem_cons_self blk rest))
    rw [go_cons, go_cons, hce]
    by_cases he : (entryOf vOne2 idx blk).verified = true
    · rw [if_pos he, if_pos he]
    · rw [if_neg he, if_neg he]
      exact ih (idx+1) (acc ++ [entryOf vOne2 idx blk])
        (fun x hx => h x (List.mem_cons_of_mem blk hx))

theorem verify_single_ev_fst (world : List Char → ProcOutcome)
    (code : List Char) :
    (verify_single_ev world code).1 = verify_single world code := by
  by_cases h : (looks_safe_python code).1 = false
  · simp [verify_single_ev, verify_single, h]
  · simp only [verify_single_ev, verify_single]
    rw [if_neg h, if_neg h]
    by_cases hk : (run_in_docker (world (make_executable_snippet code))).ok = true
    · rw [if_pos hk, if_pos hk]
    · rw [if_neg hk, if_neg hk]

theorem verify_single_ev_trace (world : List Char → ProcOutcome)
    (code : List Char) :
    (verify_single_ev world code).2 =
      if (looks_safe_python code).1 = true then
        [PipeEvent.screen code true,
         PipeEvent.normalize code (make_executable_snippet code),
         PipeEvent.execute (make_executable_snippet code)]
      else [PipeEvent.screen code false] := by
  by_cases h : (looks_safe_python code).1 = true
  · rw [if_pos h]
    simp only [verify_single_ev]
    rw [if_neg (by rw [h]; simp)]
    by_cases hk : (run_in_docker (world (make_executable_snippet code))).ok = true
    · rw [if_pos hk]
    · rw [if_neg hk]
  · rw [if_neg h]
    have h2 : (looks_safe_python code).1 = false := by
      cases hb : (looks_safe_python code).1
      · rfl
      · exact absurd hb h
    simp [verify_single_ev, h2]

theorem dropWhile_dropWhile_self {α : Type} (p : α → Bool) (l : List α) :
    List.dropWhile p (List.dropWhile p l) = List.dropWhile p l := by
  induction l with
  | nil => rfl
  | cons a l ih =>
    by_cases h : p a = true
    · simp [List.dropWhile_cons, h, ih]
    · simp [List.dropWhile_cons, h]

theorem pyRStrip_rstrip_newline (s : List Char) :
    pyRStrip (pyRStrip s ++ [('\n')]) = pyRStrip s := by
  unfold pyRStrip
  rw [List.reverse_append, List.reverse_reverse]
  simp [List.dropWhile_cons, isPyWS, dropWhile_dropWhile_self]

theorem pyStrip_rstrip_newline (s : List Char) :
    pyStrip (pyRStrip s ++ [('\n')]) = pyStrip s := by
  unfold pyStrip
  rw [pyRStrip_rstrip_newline]

theorem mem_takeWhile_ws {α : Type} (p : α → Bool) (l : List α) :
    ∀ c ∈ l.takeWhile p, p c = true := by
  induction l with
  | nil => intro c hc; simp at hc
  | cons a l ih =>
    intro c hc
    by_cases h : p a = true
    · rw [List.takeWhile_cons_of_pos h] at hc
      rcases List.mem_cons.mp hc with h1 | h1
      · rw [h1]; exact h
      · exact ih c h1
    · rw [List.takeWhile_cons_of_neg h] at hc
      simp at hc

theorem pyRStrip_append_ws (s : List Char) :
    ∃ t : List Char, pyRStrip s ++ t = s ∧ ∀ c ∈ t, isPyWS c = true := by
  refine ⟨(s.reverse.takeWhile isPyWS).reverse, ?_, ?_⟩
  · rw [pyRStrip, ← List.reverse_append, List.takeWhile_append_dropWhile,
      List.reverse_reverse]
  · intro c hc
    rw [List.mem_reverse] at hc
    exact mem_takeWhile_ws isPyWS s.reverse c hc

theorem entryOf_index (vOne : List Char → Except (List Char) SingleResult)
    (idx : Nat) (blk : List Char) : (entryOf vOne idx blk).index = idx := by
  by_cases hs : skip_check blk = true
  · simp [entryOf, hs]
  · cases hv : vOne blk <;> simp [entryOf, hs, hv]

/-! Concrete inputs and oracles used in witnesses and counterexamples. -/

/-- A one-character string holding the apostrophe. -/
def qs : String := String.mk [aposChar]

/-- The candidate `print('hi')` from the spec scenario. -/
def cand_print_hi : List Char := (("print(" ++ qs ++ "hi" ++ qs ++ ")")).data

/-- The candidate `import os; os.system('rm -rf /')` from the spec scenario. -/
def cand_rm_rf : List Char :=
  (("import os; os.system(" ++ qs ++ "rm -rf /" ++ qs ++ ")")).data

/-- The bare expression `1 + 1` from the spec scenario. -/
def cand_expr : List Char := (("1 + 1")).data

/-- Sample candidates for batch runs. -/
def candA : List Char := (("print(1)")).data

/-- Second sample candidate. -/
def candB : List Char := (("print(2)")).data

/-- Third sample candidate. -/
def candC : List Char := (("print(3)")).data

/-- An external world in which every sandbox run exits 0. -/
def worldPass : List Char → ProcOutcome :=
  fun _ => ProcOutcome.completed 0 ((("ok")).data) []

/-- An external world in which every sandbox run exits 1. -/
def worldFail : List Char → ProcOutcome :=
  fun _ => ProcOutcome.completed 1 [] ((("boom")).data)

/-- An external world in which only `candB`'s normalized payload exits 0. -/
def worldOnlyB : List Char → ProcOutcome := fun p =>
  if p = make_executable_snippet candB then
    ProcOutcome.completed 0 ((("hi")).data) []
  else ProcOutcome.completed 1 [] ((("err")).data)

/-- The concrete never-raising single pipeline used by `verify_python`. -/
def vOneOf (world : List Char → ProcOutcome) :
    List Char → Except (List Char) SingleResult :=
  fun c => Except.ok (verify_single world c)

/-- A candidate on which the exception-raising oracle below raises. -/
def cand_boom : List Char := (("boom!!")).data

/-- A single pipeline that raises exactly on `cand_boom`. -/
def vOneExc : List Char → Except (List Char) SingleResult := fun c =>
  if c = cand_boom then Except.error ((("kaboom")).data)
  else Except.ok (verify_single worldFail c)

/-! The claims. -/

/-- C9: on an empty candidate list, `verify_python` returns
`verified = false`, `reason = no_block_verified`, an empty trial
history and no winner details; the result is the same for every
single-candidate pipeline `vOne` and every external world, so no
normalizer, screener or executor is ever consulted. -/
theorem claim_C9 (vOne : List Char → Except (List Char) SingleResult)
    (world : List Char → ProcOutcome) :
    verify_python_batch vOne [] =
      ⟨false, some (("no_block_verified")), [], none⟩ ∧
    verify_python world [] =
      ⟨false, some (("no_block_verified")), [], none⟩ :=
  ⟨rfl, rfl⟩

/-- C5: classification of one sandbox run by `run_in_docker`.  Exit code
0 gives `ok = true` with captured (stripped) stdout/stderr; a non-zero
exit gives `ok = rc == 0 = false` with the exit code and stderr
retained and no `error` tag (the spec's `nonzero_exit` case);
`TimeoutExpired` gives `ok = false` with `error = "timeout"`; any other
exception gives `ok = false` with the message retained in `error` (the
spec's `launch_error` case).  The final conjunct ties `ok` to the
spec's failure-kind taxonomy `failure_kind`: a run succeeds exactly
when its failure kind is absent. -/
theorem claim_C5 :
    (∀ (rc : Int) (out err : List Char),
      run_in_docker (ProcOutcome.completed rc out err) =
        { ok := rc == 0, stdout := some (pyStrip out),
          stderr := some (pyStrip err), return_code := some rc,
          error := none }) ∧
    (run_in_docker ProcOutcome.timeoutExpired =
      { ok := false, stdout := some [], stderr := some [],
        return_code := none, error := some ((("timeout")).data) }) ∧
    (∀ msg : List Char,
      run_in_docker (ProcOutcome.raised msg) =
        { ok := false, stdout := none, stderr := none,
          return_code := none, error := some msg }) ∧
    (∀ p : ProcOutcome, (run_in_docker p).ok = (failure_kind p).isNone) := by
  refine ⟨fun rc out err => rfl, rfl, fun msg => rfl, fun p => ?_⟩
  cases p with
  | completed rc out err =>
    by_cases h : rc == 0
    · simp [run_in_docker, failure_kind, h]
    · simp [run_in_docker, failure_kind, h]
  | timeoutExpired => rfl
  | raised msg => rfl

/-- C2 counterexample: the claim states that a source which is already a
statement — in particular `print('hi')` — is passed through unchanged
(up to trailing-newline termination).  The code instead wraps every
source whose stripped text has no newline, so `make_executable_snippet`
turns `print('hi')` into `print(print('hi'))\n`. -/
theorem claim_C2_counterexample :
    make_executable_snippet cand_print_hi ≠ cand_print_hi ++ [('\n')] ∧
    make_executable_snippet cand_print_hi ≠ cand_print_hi ∧
    make_executable_snippet cand_print_hi =
      (("print(print(" ++ qs ++ "hi" ++ qs ++ "))\n")).data :=
  ⟨by decide, by decide, by decide⟩

/-- C2 amended: `make_executable_snippet` wraps the stripped source in
`print(...)` precisely when the stripped source contains no newline
character — whether or not it is already a statement; a source whose
stripped text contains a newline passes through with only trailing
whitespace removed and a final newline appended (the retained part is a
prefix of the original and the dropped suffix is all whitespace). -/
theorem claim_C2 (code : List Char) :
    (('\n') ∈ pyStrip code →
      make_executable_snippet code = pyRStrip code ++ [('\n')] ∧
      ∃ t : List Char, pyRStrip code ++ t = code ∧ ∀ c ∈ t, isPyWS c = true) ∧
    (('\n') ∉ pyStrip code →
      make_executable_snippet code =
        (("print(").data) ++ pyStrip code ++ ((")\n").data)) := by
  constructor
  · intro h
    refine ⟨?_, pyRStrip_append_ws code⟩
    simp only [make_executable_snippet, pyStrip_rstrip_newline]
    rw [if_pos h]
  · intro h
    simp only [make_executable_snippet, pyStrip_rstrip_newline]
    rw [if_neg h]

/-- Witness for the amended C2 at concrete inputs: a two-line source
passes through rstripped and newline-terminated; the bare expression
`1 + 1` is wrapped. -/
theorem claim_C2_witness :
    (('\n') ∈ pyStrip ((("x = 1\ny = 2")).data) ∧
      make_executable_snippet ((("x = 1\ny = 2")).data) =
        pyRStrip ((("x = 1\ny = 2")).data) ++ [('\n')]) ∧
    (('\n') ∉ pyStrip cand_expr ∧
      make_executable_snippet cand_expr =
        (("print(").data) ++ pyStrip cand_expr ++ ((")\n").data)) :=
  ⟨⟨by decide, ((claim_C2 ((("x = 1\ny = 2")).data)).1 (by decide)).1⟩,
   ⟨by decide, (claim_C2 cand_expr).2 (by decide)⟩⟩

/-- C3 counterexample: the claim states the screener is applied to the
normalized form, after normalization.  On the bare expression `1 + 1`
the instrumented pipeline's trace shows the screener receiving the raw
source (which differs from its normalized form) as the first step, and
no screen event on the normalized form occurs. -/
theorem claim_C3_counterexample :
    (verify_single_ev worldPass cand_expr).2 =
      [PipeEvent.screen cand_expr true,
       PipeEvent.normalize cand_expr (make_executable_snippet cand_expr),
       PipeEvent.execute (make_executable_snippet cand_expr)] ∧
    cand_expr ≠ make_executable_snippet cand_expr ∧
    PipeEvent.screen (make_executable_snippet cand_expr) true ∉
      (verify_single_ev worldPass cand_expr).2 ∧
    PipeEvent.screen (make_executable_snippet cand_expr) false ∉
      (verify_single_ev worldPass cand_expr).2 :=
  ⟨by decide, by decide, by decide, by decide⟩

/-- C3 amended: the single-form pipeline applies the components in the
order Screener (on the raw source) → Normalizer → Executor: a
blacklisted candidate produces only a screen event and is never
normalized or executed, while a safe candidate is normalized and the
executor receives exactly the normalized form. -/
theorem claim_C3 (world : List Char → ProcOutcome) (code : List Char) :
    (verify_single_ev world code).1 = verify_single world code ∧
    (verify_single_ev world code).2 =
      (if (looks_safe_python code).1 = true then
        [PipeEvent.screen code true,
         PipeEvent.normalize code (make_executable_snippet code),
         PipeEvent.execute (make_executable_snippet code)]
      else [PipeEvent.screen code false]) :=
  ⟨verify_single_ev_fst world code, verify_single_ev_trace world code⟩

/-- C4: a candidate matching a forbidden pattern is rejected by
`_verify_single` with `verified = false`,
`reason = static_blacklist_match` and the matched pattern list, and the
instrumented trace consists of the screen event alone — the normalizer
and the sandbox executor are never invoked (zero sandbox instances). -/
theorem claim_C4 (world : List Char → ProcOutcome) (code : List Char)
    (h : (looks_safe_python code).1 = false) :
    verify_single world code =
      { verified := false, reason := ("static_blacklist_match"),
        matched := some (looks_safe_python code).2, details := none } ∧
    (verify_single_ev world code).2 = [PipeEvent.screen code false] := by
  constructor
  · simp [verify_single, h]
  · rw [verify_single_ev_trace, if_neg (by rw [h]; simp)]

/-- Witness for C4 at the spec's concrete input
`import os; os.system('rm -rf /')`, under a world in which every
sandbox run would succeed: the screener rejects and no execute event
occurs. -/
theorem claim_C4_witness :
    (looks_safe_python cand_rm_rf).1 = false ∧
    (verify_single worldPass cand_rm_rf).verified = false ∧
    (verify_single worldPass cand_rm_rf).reason = ("static_blacklist_match") ∧
    (verify_single_ev worldPass cand_rm_rf).2 =
      [PipeEvent.screen cand_rm_rf false] := by
  have h : (looks_safe_python cand_rm_rf).1 = false := by decide
  obtain ⟨h1, h2⟩ := claim_C4 worldPass cand_rm_rf h
  exact ⟨h, by rw [h1], by rw [h1], h2⟩

/-- C1: short-circuit invariant of the batch form.  If the trial record
at position `i` is verified then it is the last record (`length = i+1`,
so no record exists for any later candidate), the whole result equals
the result on the first `i+1` candidates alone, the verified record is
unique, and the result is unchanged under any replacement of the
single-candidate pipeline that agrees on the first `i+1` candidates —
so no later candidate is ever normalized, screened or executed. -/
theorem claim_C1 (vOne : List Char → Except (List Char) SingleResult)
    (xs : List (List Char)) (i : Nat)
    (h : i < (verify_python_batch vOne xs).tried_blocks.length)
    (hv : ((verify_python_batch vOne xs).tried_blocks.get ⟨i, h⟩).verified = true) :
    (verify_python_batch vOne xs).tried_blocks.length = i + 1 ∧
    verify_python_batch vOne xs = verify_python_batch vOne (xs.take (i+1)) ∧
    (∀ (j : Nat) (hj : j < (verify_python_batch vOne xs).tried_blocks.length),
      ((verify_python_batch vOne xs).tried_blocks.get ⟨j, hj⟩).verified = true →
        j = i) ∧
    (∀ vOne2 : List Char → Except (List Char) SingleResult,
      (∀ y ∈ xs.take (i+1), vOne2 y = vOne y) →
      verify_python_batch vOne2 xs = verify_python_batch vOne xs) := by
  simp only [verify_python_batch] at h hv ⊢
  have hq := List.get?_eq_get h
  obtain ⟨hlen, hver, htake⟩ := go_stopq vOne xs 0 i _ hq hv
  refine ⟨hlen, htake, ?_, ?_⟩
  · intro j hj hvj
    have hq2 := List.get?_eq_get hj
    obtain ⟨hlen2, _, _⟩ := go_stopq vOne xs 0 j _ hq2 hvj
    omega
  · intro vOne2 hagree
    have hver_take :
        (verify_python_go vOne 0 (xs.take (i+1)) []).verified = true := by
      rw [← htake]; exact hver
    have hext : verify_python_go vOne2 0 (xs.take (i+1)) [] =
        verify_python_go vOne 0 (xs.take (i+1)) [] :=
      go_ext vOne2 vOne (xs.take (i+1)) 0 [] (fun x hx2 => hagree x hx2)
    have hver2 : (verify_python_go vOne2 0 (xs.take (i+1)) []).verified = true := by
      rw [hext]; exact hver_take
    calc verify_python_go vOne2 0 xs []
        = verify_python_go vOne2 0 (xs.take (i+1) ++ xs.drop (i+1)) [] := by
          rw [List.take_append_drop]
      _ = verify_python_go vOne2 0 (xs.take (i+1)) [] :=
          go_append_verified vOne2 (xs.take (i+1)) (xs.drop (i+1)) 0 hver2
      _ = verify_python_go vOne 0 (xs.take (i+1)) [] := hext
      _ = verify_python_go vOne 0 xs [] := htake.symm

/-- Witness for C1: in the batch `[A, B, C]` where `A` fails and `B`
succeeds, the trial history has exactly 2 records and the result equals
the result on `[A, B]`: `C` is never evaluated. -/
theorem claim_C1_witness :
    (verify_python_batch (vOneOf worldOnlyB) [candA, candB, candC]).tried_blocks.length = 2 ∧
    verify_python_batch (vOneOf worldOnlyB) [candA, candB, candC] =
      verify_python_batch (vOneOf worldOnlyB) [candA, candB] := by
  obtain ⟨h1, h2, _, _⟩ :=
    claim_C1 (vOneOf worldOnlyB) [candA, candB, candC] 1 (by decide) (by decide)
  exact ⟨h1, h2⟩

/-- C6: when no candidate verifies, the batch form returns
`verified = false`, `reason = no_block_verified`, no winner details,
and a trial history with exactly one record per input candidate — the
record at position `i` being exactly the loop's record for candidate
`i` (skipped or not). -/
theorem claim_C6 (vOne : List Char → Except (List Char) SingleResult)
    (xs : List (List Char))
    (h : ∀ x ∈ xs, entry_verified vOne x = false) :
    (verify_python_batch vOne xs).verified = false ∧
    (verify_python_batch vOne xs).reason = some (("no_block_verified")) ∧
    (verify_python_batch vOne xs).winner = none ∧
    (verify_python_batch vOne xs).tried_blocks.length = xs.length ∧
    (∀ (i : Nat) (hi : i < (verify_python_batch vOne xs).tried_blocks.length)
       (hx : i < xs.length),
      (verify_python_batch vOne xs).tried_blocks.get ⟨i, hi⟩ =
        entryOf vOne i (xs.get ⟨i, hx⟩)) := by
  simp only [verify_python_batch]
  obtain ⟨h1, h2, h3, h4⟩ := go_nosucc vOne xs 0 h
  refine ⟨h1, h2, h3, h4, fun i hi hx => ?_⟩
  have hg := go_get vOne xs 0 i hx hi
  simpa using hg

/-- Witness for C6: a batch of one too-short candidate and one failing
candidate yields `no_block_verified` with one record per candidate. -/
theorem claim_C6_witness :
    (∀ x ∈ [(("hi")).data, candA], entry_verified (vOneOf worldFail) x = false) ∧
    (verify_python_batch (vOneOf worldFail) [(("hi")).data, candA]).verified = false ∧
    (verify_python_batch (vOneOf worldFail) [(("hi")).data, candA]).reason =
      some (("no_block_verified")) ∧
    (verify_python_batch (vOneOf worldFail) [(("hi")).data, candA]).winner = none ∧
    (verify_python_batch (vOneOf worldFail) [(("hi")).data, candA]).tried_blocks.length = 2 := by
  have h : ∀ x ∈ [(("hi")).data, candA],
      entry_verified (vOneOf worldFail) x = false := by decide
  obtain ⟨h1, h2, h3, h4, _⟩ := claim_C6 (vOneOf worldFail) [(("hi")).data, candA] h
  exact ⟨h, h1, h2, h3, h4⟩

/-- C10: trial records are listed in input order with dense indices:
the record at position `i` of the returned history has `index = i`. -/
theorem claim_C10 (vOne : List Char → Except (List Char) SingleResult)
    (xs : List (List Char)) (i : Nat)
    (hi : i < (verify_python_batch vOne xs).tried_blocks.length) :
    ((verify_python_batch vOne xs).tried_blocks.get ⟨i, hi⟩).index = i := by
  simp only [verify_python_batch] at hi ⊢
  have hx : i < xs.length := lt_of_lt_of_le hi (go_len_le vOne xs 0)
  rw [go_get vOne xs 0 i hx hi, entryOf_index]
  exact Nat.zero_add i

/-- Witness for C10 at a concrete two-candidate batch. -/
theorem claim_C10_witness :
    ((verify_python_batch (vOneOf worldFail) [candA, candB]).tried_blocks.get
      ⟨1, by decide⟩).index = 1 :=
  claim_C10 (vOneOf worldFail) [candA, candB] 1 (by decide)

/-- C7: an internal fault of the single-candidate pipeline on one
candidate is caught: that candidate's record carries `verified = false`,
`reason = exception_in_verifier` and the error text, and the batch goes
on to evaluate the remaining candidates — the overall verdict, reason
and winner details equal those of running the remaining candidates
alone, and the fault never escapes `verify_python` (the embedded batch
function is total and returns a `BatchResult` here). -/
theorem claim_C7 (vOne : List Char → Except (List Char) SingleResult)
    (pre post : List (List Char)) (blk e : List Char)
    (h1 : ∀ x ∈ pre, entry_verified vOne x = false)
    (h2 : ¬ skip_check blk = true)
    (h3 : vOne blk = Except.error e) :
    (verify_python_batch vOne (pre ++ blk :: post)).tried_blocks.get? pre.length =
      some ⟨pre.length, false, false, some (("exception_in_verifier")),
        some (TrialDetails.error e)⟩ ∧
    (verify_python_batch vOne (pre ++ blk :: post)).verified =
      (verify_python_batch vOne post).verified ∧
    (verify_python_batch vOne (pre ++ blk :: post)).reason =
      (verify_python_batch vOne post).reason ∧
    (verify_python_batch vOne (pre ++ blk :: post)).winner =
      (verify_python_batch vOne post).winner ∧
    (verify_python_batch vOne (pre ++ blk :: post)).tried_blocks.length =
      pre.length + 1 + (verify_python_batch vOne post).tried_blocks.length := by
  simp only [verify_python_batch]
  obtain ⟨P, hPlen, heq⟩ := go_split vOne pre (blk :: post) 0 h1
  have hentry : entryOf vOne (0 + pre.length) blk =
      ⟨pre.length, false, false, some (("exception_in_verifier")),
        some (TrialDetails.error e)⟩ := by
    simp [entryOf, h2, h3]
  have hstep : verify_python_go vOne (0 + pre.length) (blk :: post) [] =
      ⟨(verify_python_go vOne (0 + pre.length + 1) post []).verified,
       (verify_python_go vOne (0 + pre.length + 1) post []).reason,
       entryOf vOne (0 + pre.length) blk ::
         (verify_python_go vOne (0 + pre.length + 1) post []).tried_blocks,
       (verify_python_go vOne (0 + pre.length + 1) post []).winner⟩ := by
    rw [go_cons, if_neg (by rw [hentry]; simp),
      go_acc vOne post (0 + pre.length + 1)
        ([] ++ [entryOf vOne (0 + pre.length) blk])]
    simp
  obtain ⟨hv', hr', hw', hl'⟩ := go_idx_inv vOne post (0 + pre.length + 1) 0
  have hT : (verify_python_go vOne 0 (pre ++ blk :: post) []).tried_blocks =
      P ++ entryOf vOne (0 + pre.length) blk ::
        (verify_python_go vOne (0 + pre.length + 1) post []).tried_blocks := by
    rw [heq, hstep]
  have hV : (verify_python_go vOne 0 (pre ++ blk :: post) []).verified =
      (verify_python_go vOne (0 + pre.length + 1) post []).verified := by
    rw [heq, hstep]
  have hR : (verify_python_go vOne 0 (pre ++ blk :: post) []).reason =
      (verify_python_go vOne (0 + pre.length + 1) post []).reason := by
    rw [heq, hstep]
  have hW : (verify_python_go vOne 0 (pre ++ blk :: post) []).winner =
      (verify_python_go vOne (0 + pre.length + 1) post []).winner := by
    rw [heq, hstep]
  refine ⟨?_, by rw [hV]; exact hv', by rw [hR]; exact hr',
    by rw [hW]; exact hw', ?_⟩
  · rw [hT, List.get?_append_right (le_of_eq hPlen)]
    simp [hPlen]
    simpa using hentry
  · rw [hT]
    simp only [List.length_append, List.length_cons, hPlen, hl']
    omega

/-- Witness for C7: in the batch `[A, boom!!, C]` where the pipeline
raises on `boom!!`, the second record is the exception record and the
third candidate is still processed. -/
theorem claim_C7_witness :
    (verify_python_batch vOneExc [candA, cand_boom, candC]).tried_blocks.get? 1 =
      some ⟨1, false, false, some (("exception_in_verifier")),
        some (TrialDetails.error ((("kaboom")).data))⟩ ∧
    (verify_python_batch vOneExc [candA, cand_boom, candC]).tried_blocks.length =
      2 + (verify_python_batch vOneExc [candC]).tried_blocks.length := by
  have h := claim_C7 vOneExc [candA] [candC] cand_boom ((("kaboom")).data)
    (by decide) (by decide) (by simp [vOneExc])
  exact ⟨h.1, by simpa using h.2.2.2.2⟩

/-- C8 counterexample: the claim states that for a candidate rejected by
the static screener the matched forbidden-pattern identifiers are
present in that candidate's trial record.  In the code `verify_python`
copies only `res.get("details")` into the record while the blacklist
branch of `_verify_single` returns the pattern list under the key
`matches`, so the record's `details` is `None` and the (non-empty)
match list appears nowhere in the record. -/
theorem claim_C8_counterexample :
    (verify_python worldPass [cand_rm_rf]).tried_blocks =
      [⟨0, false, false, some (("static_blacklist_match")), none⟩] ∧
    (looks_safe_python cand_rm_rf).2 ≠ [] :=
  ⟨by decide, by decide⟩

/-- C8 amended: the record of a non-skipped candidate carries the
`details` of that candidate's single-form result: for an executed
candidate (reason `docker_passed` or `docker_failed`) this is the
docker `ExecutionOutcome` for its normalized form, while for a
screener-rejected candidate (reason `static_blacklist_match`) it is
`none` — the matched pattern identifiers are not copied into the trial
record. -/
theorem claim_C8 (world : List Char → ProcOutcome) (xs : List (List Char))
    (i : Nat)
    (hi : i < (verify_python world xs).tried_blocks.length)
    (hx : i < xs.length)
    (hns : ((verify_python world xs).tried_blocks.get ⟨i, hi⟩).skipped = false) :
    ((verify_python world xs).tried_blocks.get ⟨i, hi⟩).details =
      (verify_single world (xs.get ⟨i, hx⟩)).details.map TrialDetails.docker ∧
    ((verify_single world (xs.get ⟨i, hx⟩)).reason = ("static_blacklist_match") →
      ((verify_python world xs).tried_blocks.get ⟨i, hi⟩).details = none) ∧
    (((verify_single world (xs.get ⟨i, hx⟩)).reason = ("docker_passed") ∨
      (verify_single world (xs.get ⟨i, hx⟩)).reason = ("docker_failed")) →
      ((verify_python world xs).tried_blocks.get ⟨i, hi⟩).details =
        some (TrialDetails.docker
          (run_in_docker (world (make_executable_snippet (xs.get ⟨i, hx⟩)))))) := by
  simp only [verify_python, verify_python_batch] at hi hns ⊢
  have hrec := go_get (fun c => Except.ok (verify_single world c)) xs 0 i hx hi
  rw [hrec] at hns ⊢
  set c := xs.get ⟨i, hx⟩ with hc
  by_cases hskip : skip_check c = true
  · rw [entryOf, if_pos hskip] at hns
    simp at hns
  · refine ⟨?_, ?_, ?_⟩
    · rw [entryOf, if_neg hskip]
    · intro hreason
      rw [entryOf, if_neg hskip]
      have hd : (verify_single world c).details = none := by
        by_cases hsafe : (looks_safe_python c).1 = false
        · simp only [verify_single]; rw [if_pos hsafe]
        · exfalso
          revert hreason
          simp only [verify_single]
          rw [if_neg hsafe]
          by_cases hok : (run_in_docker (world
              (make_executable_snippet c))).ok = true
          · rw [if_pos hok]
            intro hreason
            have hss : ("docker_passed" : String) = ("static_blacklist_match") :=
              hreason
            exact absurd hss (by decide)
          · rw [if_neg hok]
            intro hreason
            have hss : ("docker_failed" : String) = ("static_blacklist_match") :=
              hreason
            exact absurd hss (by decide)
      show (verify_single world c).details.map TrialDetails.docker = none
      rw [hd]
      rfl
    · intro hdocker
      rw [entryOf, if_neg hskip]
      by_cases hsafe : (looks_safe_python c).1 = false
      · exfalso
        have hsr : (verify_single world c).reason = ("static_blacklist_match") := by
          simp only [verify_single]; rw [if_pos hsafe]
        rcases hdocker with hd1 | hd1 <;> rw [hsr] at hd1 <;>
          exact absurd hd1 (by decide)
      · show (verify_single world c).details.map TrialDetails.docker =
          some (TrialDetails.docker (run_in_docker (world (make_executable_snippet c))))
        have hd : (verify_single world c).details =
            some (run_in_docker (world (make_executable_snippet c))) := by
          simp only [verify_single]
          rw [if_neg hsafe]
          by_cases hok : (run_in_docker (world
              (make_executable_snippet c))).ok = true
          · rw [if_pos hok]
          · rw [if_neg hok]
        rw [hd]
        rfl

/-- Witness for the amended C8: in a batch of one failing candidate,
the record's details are exactly the docker outcome of its normalized
form (and an executed candidate's details are never `none`). -/
theorem claim_C8_witness :
    ((verify_python worldFail [candA]).tried_blocks.get ⟨0, by decide⟩).skipped
      = false ∧
    ((verify_python worldFail [candA]).tried_blocks.get ⟨0, by decide⟩).details =
      (verify_single worldFail candA).details.map TrialDetails.docker := by
  have h := claim_C8 worldFail [candA] 0 (by decide) (by decide) (by decide)
  exact ⟨by decide, h.1⟩

end AnswerForge
